import Mathlib

/-!
Verification of the nasty-data index-management core
(`src/nasty_data/elasticsearch_/index.py`).

The development shallowly embeds the functions of that module:

* `make_upsert_op` / `mergeScript` — the bulk-upsert operation builder
  `_make_upsert_op` and the painless merge script it attaches, acting on a
  stored document's merge-group field;
* `new_index` — index-generation creation, optional reindex, and the
  alias swap, acting on an explicit engine state (indices + aliases);
* `analyze_index` / `recursiveMappingDiff` — the mapping-diff analyzer
  `analyze_index` / `_log_mapping_diff` / `_recursive_mapping_diff`;
* `add_documents_to_index` — the bulk ingestion driver;
* `from_dict` — `BaseDocument.from_dict` over an explicit heap of dicts,
  capturing the deepcopy-before-mutation discipline.

Machine-level effects (network, process pools, logging text) are modelled
by explicit state passing and `Except`; per-item engine outcomes are
injected as boolean oracles.
-/

namespace NastyData

/-! ## Provenance merge model (`_make_upsert_op`)

A provenance entry is one element of a document's merge group: its
sub-identity (`meta_field_id`, e.g. `dump_file` or batch `id`) plus
arbitrary descriptive fields. The merge-group field of a stored document
is either absent/null, a single entry object, or a list of entries —
exactly the three cases the painless script distinguishes. -/

structure ProvEntry where
  subId : String
  fields : List (String × String)
deriving DecidableEq

inductive MetaFieldVal : Type where
  | null : MetaFieldVal
  | single (e : ProvEntry) : MetaFieldVal
  | list (es : List ProvEntry) : MetaFieldVal
deriving DecidableEq

/-- A document as stored in the engine: its ordinary fields plus the
merge-group field (`meta_field`). -/
structure StoredDoc where
  otherFields : List (String × String)
  metaField : MetaFieldVal
deriving DecidableEq

/-- The entries of a merge-group field value. -/
def MetaFieldVal.entries : MetaFieldVal → List ProvEntry
  | .null => []
  | .single e => [e]
  | .list es => es

/-- Number of entries of `es` whose sub-identity is `x`. -/
def entriesSubIdCount (es : List ProvEntry) (x : String) : Nat :=
  (es.filter fun e => e.subId == x).length

/-- Number of merge-group entries with sub-identity `x` in a stored
document slot (`none` = the document does not exist). -/
def subIdCount (stored : Option StoredDoc) (x : String) : Nat :=
  match stored with
  | none => 0
  | some d => entriesSubIdCount d.metaField.entries x

/-- The painless merge script of `_make_upsert_op`, applied by the engine
to an existing document `doc` with `params.meta_field = p`:

* if `ctx._source.meta_field == null`, set it to `p`;
* else if it is a list, append `p` iff no element shares `p`'s
  sub-identity;
* else (single entry), if its sub-identity differs from `p`'s, replace the
  field by the two-element list `[existing, p]`. -/
def mergeScript (p : ProvEntry) (doc : StoredDoc) : StoredDoc :=
  match doc.metaField with
  | .null => { doc with metaField := .single p }
  | .list es =>
    if es.any (fun e => e.subId == p.subId) then doc
    else { doc with metaField := .list (es ++ [p]) }
  | .single e =>
    if e.subId != p.subId then { doc with metaField := .list [e, p] }
    else doc

/-- The (serialized) document dict handed to `_make_upsert_op`:
`document.meta.id`, the ordinary fields, and
`document_dict.get(meta_field)` (`none` when the merge-group field is
absent from the dict). -/
structure DocumentDict where
  id : String
  otherFields : List (String × String)
  metaFieldData : Option ProvEntry
deriving DecidableEq

/-- The document body as it lands in the engine when used as upsert/doc
body: an absent merge-group field reads back as null. -/
def DocumentDict.toStoredDoc (d : DocumentDict) : StoredDoc :=
  { otherFields := d.otherFields,
    metaField := match d.metaFieldData with
                 | none => .null
                 | some p => .single p }

/-- A bulk operation built by `_make_upsert_op`: either a plain
`doc_as_upsert` update or a scripted upsert carrying the merge script's
parameter. -/
inductive BulkOp : Type where
  | docAsUpsert (indexName id : String) (doc : StoredDoc)
  | scriptedUpsert (indexName id : String) (upsertBody : StoredDoc) (metaParam : ProvEntry)
deriving DecidableEq

/-- The builder `_make_upsert_op`: when the document class declares a merge-group
field (`meta_field()`) and the dict actually carries data for it, build a
scripted upsert; otherwise a plain `doc_as_upsert` update. -/
def make_upsert_op (indexName : String) (metaFieldDeclared : Bool)
    (d : DocumentDict) : BulkOp :=
  match metaFieldDeclared, d.metaFieldData with
  | true, some p => .scriptedUpsert indexName d.id d.toStoredDoc p
  | true, none => .docAsUpsert indexName d.id d.toStoredDoc
  | false, _ => .docAsUpsert indexName d.id d.toStoredDoc

/-- Engine semantics of submitting one bulk operation against the current
slot of its target document (`none` = document absent): an upsert inserts
the body when the document is absent, otherwise the scripted variant runs
the merge script and the plain variant overwrites. -/
def applyBulkOp (op : BulkOp) (stored : Option StoredDoc) : StoredDoc :=
  match op, stored with
  | .docAsUpsert _ _ doc, none => doc
  | .docAsUpsert _ _ doc, some _ => doc
  | .scriptedUpsert _ _ body _, none => body
  | .scriptedUpsert _ _ _ p, some doc => mergeScript p doc

/-- Repeated (`n`-fold) submission of the same bulk operation. -/
def applyBulkOpN (op : BulkOp) : Nat → Option StoredDoc → Option StoredDoc
  | 0, s => s
  | n + 1, s => some (applyBulkOp op (applyBulkOpN op n s))

end NastyData

namespace NastyData

/-! ## Lemmas about the merge script -/

/-- Applying the merge script when some stored entry already has the
parameter's sub-identity changes nothing. -/
theorem mergeScript_noop_of_subId_mem (p : ProvEntry) (doc : StoredDoc)
    (h : p.subId ∈ doc.metaField.entries.map ProvEntry.subId) :
    mergeScript p doc = doc := by
  cases hm : doc.metaField with
  | null => simp [MetaFieldVal.entries, hm] at h
  | single e =>
    simp only [hm, MetaFieldVal.entries, List.map_cons, List.map_nil,
      List.mem_singleton] at h
    simp [mergeScript, hm, bne, h]
  | list es =>
    simp only [hm, MetaFieldVal.entries, List.mem_map] at h
    obtain ⟨e, he, hsub⟩ := h
    have hany : es.any (fun e => e.subId == p.subId) = true :=
      List.any_eq_true.mpr ⟨e, he, by simp [hsub]⟩
    simp [mergeScript, hm, hany]

/-- The merge script is idempotent. -/
theorem mergeScript_idem (p : ProvEntry) (doc : StoredDoc) :
    mergeScript p (mergeScript p doc) = mergeScript p doc := by
  cases hm : doc.metaField with
  | null => simp [mergeScript, hm]
  | single e =>
    by_cases he : e.subId = p.subId
    · simp [mergeScript, hm, bne, he]
    · simp [mergeScript, hm, bne, he]
  | list es =>
    by_cases hany : es.any (fun e => e.subId == p.subId) = true
    · simp [mergeScript, hm, hany]
    · simp [mergeScript, hm, hany, Bool.not_eq_true]

end NastyData

namespace NastyData

/-- One submission of a merge-carrying upsert op against a slot that has
no entry with the parameter's sub-identity leaves exactly one such
entry. -/
theorem subIdCount_applyBulkOp_eq_one (idx : String) (d : DocumentDict)
    (p : ProvEntry) (hd : d.metaFieldData = some p) (s : Option StoredDoc)
    (h0 : subIdCount s p.subId = 0) :
    subIdCount (some (applyBulkOp (make_upsert_op idx true d) s)) p.subId = 1 := by
  cases s with
  | none =>
    simp [make_upsert_op, hd, applyBulkOp, DocumentDict.toStoredDoc, subIdCount,
      entriesSubIdCount, MetaFieldVal.entries]
  | some doc =>
    simp only [subIdCount, entriesSubIdCount, List.length_eq_zero] at h0
    cases hm : doc.metaField with
    | null =>
      simp [make_upsert_op, hd, applyBulkOp, mergeScript, hm, subIdCount,
        entriesSubIdCount, MetaFieldVal.entries]
    | single e =>
      rw [hm] at h0
      have he : ¬(e.subId == p.subId) = true := by
        intro hcontra
        simp [MetaFieldVal.entries, List.filter_eq_nil_iff] at h0
        exact h0 (by simpa using hcontra)
      simp only [beq_iff_eq] at he
      simp [make_upsert_op, hd, applyBulkOp, mergeScript, hm, bne, he,
        subIdCount, entriesSubIdCount, MetaFieldVal.entries]
    | list es =>
      rw [hm] at h0
      simp only [MetaFieldVal.entries, List.filter_eq_nil_iff] at h0
      have hany : es.any (fun e => e.subId == p.subId) = false := by
        simp only [List.any_eq_false]
        intro e he
        exact fun hc => h0 e he hc
      simp [make_upsert_op, hd, applyBulkOp, mergeScript, hm, hany, subIdCount,
        entriesSubIdCount, MetaFieldVal.entries, List.filter_append,
        List.filter_eq_nil_iff.mpr fun e he hc => h0 e he hc]

/-- Submitting a merge-carrying upsert op twice equals submitting it
once. -/
theorem applyBulkOp_idem (idx : String) (d : DocumentDict) (p : ProvEntry)
    (hd : d.metaFieldData = some p) (s : Option StoredDoc) :
    applyBulkOp (make_upsert_op idx true d)
        (some (applyBulkOp (make_upsert_op idx true d) s)) =
      applyBulkOp (make_upsert_op idx true d) s := by
  cases s with
  | none =>
    simp [make_upsert_op, hd, applyBulkOp, DocumentDict.toStoredDoc, mergeScript]
  | some doc =>
    simp only [make_upsert_op, hd, applyBulkOp]
    exact mergeScript_idem p doc

/-- Repeated (`n ≥ 1`) submission of a merge-carrying upsert op equals a
single submission. -/
theorem applyBulkOpN_eq_one (idx : String) (d : DocumentDict) (p : ProvEntry)
    (hd : d.metaFieldData = some p) (n : Nat) (hn : 1 ≤ n) (s : Option StoredDoc) :
    applyBulkOpN (make_upsert_op idx true d) n s =
      applyBulkOpN (make_upsert_op idx true d) 1 s := by
  induction n with
  | zero => omega
  | succ m ih =>
    rcases Nat.eq_or_lt_of_le hn with h1 | h1
    · rw [← h1]
    · have hm : 1 ≤ m := by omega
      show some (applyBulkOp _ (applyBulkOpN _ m s)) = _
      rw [ih hm]
      show some (applyBulkOp _ (some (applyBulkOp _ (applyBulkOpN _ 0 s)))) = _
      rw [show applyBulkOpN (make_upsert_op idx true d) 0 s = s from rfl,
        applyBulkOp_idem idx d p hd s]
      rfl

end NastyData

namespace NastyData

/-- One submission of a merge-carrying upsert op against a slot that
respects the uniqueness invariant (at most one entry with the parameter's
sub-identity) leaves exactly one such entry. -/
theorem subIdCount_applyBulkOp_of_le_one (idx : String) (d : DocumentDict)
    (p : ProvEntry) (hd : d.metaFieldData = some p) (s : Option StoredDoc)
    (h0 : subIdCount s p.subId ≤ 1) :
    subIdCount (some (applyBulkOp (make_upsert_op idx true d) s)) p.subId = 1 := by
  rcases Nat.lt_or_ge (subIdCount s p.subId) 1 with h | h
  · exact subIdCount_applyBulkOp_eq_one idx d p hd s (by omega)
  · have h1 : subIdCount s p.subId = 1 := by omega
    cases s with
    | none => simp [subIdCount] at h1
    | some doc =>
      have hmem : p.subId ∈ doc.metaField.entries.map ProvEntry.subId := by
        simp only [subIdCount, entriesSubIdCount] at h1
        have hne : (doc.metaField.entries.filter fun e => e.subId == p.subId) ≠ [] := by
          intro hc
          rw [hc] at h1
          simp at h1
        obtain ⟨e, he⟩ := List.exists_mem_of_ne_nil _ hne
        have hef := List.mem_filter.mp he
        exact List.mem_map.mpr ⟨e, hef.1, by simpa using hef.2⟩
      simp only [make_upsert_op, hd, applyBulkOp]
      rw [mergeScript_noop_of_subId_mem p doc hmem]
      exact h1

/-- C2: submitting the bulk upsert operation built by `_make_upsert_op`
for the same (document id, provenance sub-identity) pair `n ≥ 1` times
leaves the stored document in the same state as submitting it once, and —
starting from a slot respecting the uniqueness invariant — the merge-group
field then contains exactly one entry with that sub-identity, never a
duplicate. -/
theorem claim_C2_idempotent_merge (idx : String) (d : DocumentDict)
    (p : ProvEntry) (hd : d.metaFieldData = some p) (n : Nat) (hn : 1 ≤ n)
    (s : Option StoredDoc) :
    applyBulkOpN (make_upsert_op idx true d) n s =
        applyBulkOpN (make_upsert_op idx true d) 1 s ∧
      (subIdCount s p.subId ≤ 1 →
        subIdCount (applyBulkOpN (make_upsert_op idx true d) n s) p.subId = 1) := by
  refine ⟨applyBulkOpN_eq_one idx d p hd n hn s, fun h0 => ?_⟩
  rw [applyBulkOpN_eq_one idx d p hd n hn s]
  exact subIdCount_applyBulkOp_of_le_one idx d p hd s h0

/-- Witness for C2 at a concrete input: three submissions of the same
provenance entry for document `doc1` equal one submission and leave one
entry for sub-identity `b1`. -/
theorem claim_C2_idempotent_merge_witness :
    applyBulkOpN (make_upsert_op "idx" true ⟨"doc1", [("text", "hi")], some ⟨"b1", [("completed_at", "t1")]⟩⟩) 3 none =
        applyBulkOpN (make_upsert_op "idx" true ⟨"doc1", [("text", "hi")], some ⟨"b1", [("completed_at", "t1")]⟩⟩) 1 none ∧
      (subIdCount none "b1" ≤ 1 →
        subIdCount (applyBulkOpN (make_upsert_op "idx" true ⟨"doc1", [("text", "hi")], some ⟨"b1", [("completed_at", "t1")]⟩⟩) 3 none) "b1" = 1) :=
  claim_C2_idempotent_merge "idx" ⟨"doc1", [("text", "hi")], some ⟨"b1", [("completed_at", "t1")]⟩⟩
    ⟨"b1", [("completed_at", "t1")]⟩ rfl 3 (by decide) none

/-- C5: merging a second entry with a different sub-identity into a
document whose merge-group field currently holds a single entry promotes
the field to the two-element list `[existing, new]`. -/
theorem claim_C5_single_to_list_promotion (idx : String) (d : DocumentDict)
    (p e : ProvEntry) (doc : StoredDoc) (hd : d.metaFieldData = some p)
    (hm : doc.metaField = .single e) (hne : e.subId ≠ p.subId) :
    applyBulkOp (make_upsert_op idx true d) (some doc) =
      { doc with metaField := .list [e, p] } := by
  simp [make_upsert_op, hd, applyBulkOp, mergeScript, hm, bne, hne]

/-- Witness for C5 at a concrete input. -/
theorem claim_C5_single_to_list_promotion_witness :
    applyBulkOp (make_upsert_op "idx" true ⟨"doc1", [], some ⟨"b2", []⟩⟩)
        (some ⟨[("text", "hi")], .single ⟨"b1", []⟩⟩) =
      { otherFields := [("text", "hi")],
        metaField := .list [⟨"b1", []⟩, ⟨"b2", []⟩] } :=
  claim_C5_single_to_list_promotion "idx" ⟨"doc1", [], some ⟨"b2", []⟩⟩
    ⟨"b2", []⟩ ⟨"b1", []⟩ ⟨[("text", "hi")], .single ⟨"b1", []⟩⟩ rfl rfl (by decide)

/-- C10: when the stored merge group already contains an entry with the
incoming entry's sub-identity, applying the merge operation leaves the
stored document entirely unchanged, even if the incoming entry's
descriptive fields differ. -/
theorem claim_C10_existing_subId_discards_payload (idx : String)
    (d : DocumentDict) (p : ProvEntry) (doc : StoredDoc)
    (hd : d.metaFieldData = some p)
    (h : p.subId ∈ doc.metaField.entries.map ProvEntry.subId) :
    applyBulkOp (make_upsert_op idx true d) (some doc) = doc := by
  simp only [make_upsert_op, hd, applyBulkOp]
  exact mergeScript_noop_of_subId_mem p doc h

/-- Witness for C10 at a concrete input: the incoming entry has the same
sub-identity `b1` but a different `completed_at`, and the stored document
is unchanged. -/
theorem claim_C10_existing_subId_discards_payload_witness :
    applyBulkOp (make_upsert_op "idx" true ⟨"doc1", [], some ⟨"b1", [("completed_at", "t2")]⟩⟩)
        (some ⟨[("text", "hi")], .single ⟨"b1", [("completed_at", "t1")]⟩⟩) =
      ⟨[("text", "hi")], .single ⟨"b1", [("completed_at", "t1")]⟩⟩ :=
  claim_C10_existing_subId_discards_payload "idx"
    ⟨"doc1", [], some ⟨"b1", [("completed_at", "t2")]⟩⟩
    ⟨"b1", [("completed_at", "t2")]⟩
    ⟨[("text", "hi")], .single ⟨"b1", [("completed_at", "t1")]⟩⟩ rfl (by decide)

end NastyData

namespace NastyData

/-- Branch equation: merge into a null field sets the single entry. -/
theorem mergeScript_null_eq (p : ProvEntry) (doc : StoredDoc)
    (hm : doc.metaField = .null) :
    mergeScript p doc = { doc with metaField := .single p } := by
  simp [mergeScript, hm]

/-- Branch equation: merge into a single entry of the same sub-identity is
a no-op. -/
theorem mergeScript_single_eq_noop (p e : ProvEntry) (doc : StoredDoc)
    (hm : doc.metaField = .single e) (he : e.subId = p.subId) :
    mergeScript p doc = doc := by
  simp [mergeScript, hm, bne, he]

/-- Branch equation: merge into a single entry of a different sub-identity
promotes to a two-element list. -/
theorem mergeScript_single_ne_promote (p e : ProvEntry) (doc : StoredDoc)
    (hm : doc.metaField = .single e) (he : e.subId ≠ p.subId) :
    mergeScript p doc = { doc with metaField := .list [e, p] } := by
  simp [mergeScript, hm, bne, he]

/-- Branch equation: merge into a list that already contains the
sub-identity is a no-op. -/
theorem mergeScript_list_found_noop (p : ProvEntry) (es : List ProvEntry)
    (doc : StoredDoc) (hm : doc.metaField = .list es)
    (ha : es.any (fun e => e.subId == p.subId) = true) :
    mergeScript p doc = doc := by
  simp [mergeScript, hm, ha]

/-- Branch equation: merge into a list without the sub-identity appends
the entry. -/
theorem mergeScript_list_notfound_append (p : ProvEntry) (es : List ProvEntry)
    (doc : StoredDoc) (hm : doc.metaField = .list es)
    (ha : es.any (fun e => e.subId == p.subId) = false) :
    mergeScript p doc = { doc with metaField := .list (es ++ [p]) } := by
  simp only [mergeScript, hm, ha]
  simp

/-- Merging two entries with distinct sub-identities into a stored
document commutes up to permutation of the merge-group contents. -/
theorem mergeScript_comm_perm (p1 p2 : ProvEntry) (hne : p1.subId ≠ p2.subId)
    (doc : StoredDoc) :
    ((mergeScript p2 (mergeScript p1 doc)).metaField.entries).Perm
      ((mergeScript p1 (mergeScript p2 doc)).metaField.entries) := by
  have hne21 : p2.subId ≠ p1.subId := fun h => hne h.symm
  cases hm : doc.metaField with
  | null =>
    rw [mergeScript_null_eq p1 doc hm, mergeScript_null_eq p2 doc hm,
      mergeScript_single_ne_promote p2 p1 _ rfl hne,
      mergeScript_single_ne_promote p1 p2 _ rfl hne21]
    exact List.Perm.swap p2 p1 []
  | single e =>
    by_cases he1 : e.subId = p1.subId
    · have he2 : e.subId ≠ p2.subId := he1 ▸ hne
      rw [mergeScript_single_eq_noop p1 e doc hm he1,
        mergeScript_single_ne_promote p2 e doc hm he2,
        mergeScript_list_found_noop p1 [e, p2] _ rfl (by simp [he1])]
    · by_cases he2 : e.subId = p2.subId
      · rw [mergeScript_single_eq_noop p2 e doc hm he2,
          mergeScript_single_ne_promote p1 e doc hm he1,
          mergeScript_list_found_noop p2 [e, p1] _ rfl (by simp [he2])]
      · rw [mergeScript_single_ne_promote p1 e doc hm he1,
          mergeScript_single_ne_promote p2 e doc hm he2,
          mergeScript_list_notfound_append p2 [e, p1] _ rfl
            (by simp [he2, hne]),
          mergeScript_list_notfound_append p1 [e, p2] _ rfl
            (by simp [he1, hne21])]
        exact List.Perm.cons e (List.Perm.swap p2 p1 [])
  | list es =>
    by_cases ha1 : es.any (fun e => e.subId == p1.subId) = true
    · by_cases ha2 : es.any (fun e => e.subId == p2.subId) = true
      · rw [mergeScript_list_found_noop p1 es doc hm ha1,
          mergeScript_list_found_noop p2 es doc hm ha2,
          mergeScript_list_found_noop p1 es doc hm ha1]
      · have ha2' := Bool.eq_false_iff.mpr ha2
        rw [mergeScript_list_found_noop p1 es doc hm ha1,
          mergeScript_list_notfound_append p2 es doc hm ha2',
          mergeScript_list_found_noop p1 (es ++ [p2]) _ rfl
            (by simp [List.any_append, ha1])]
    · have ha1' := Bool.eq_false_iff.mpr ha1
      by_cases ha2 : es.any (fun e => e.subId == p2.subId) = true
      · rw [mergeScript_list_found_noop p2 es doc hm ha2,
          mergeScript_list_notfound_append p1 es doc hm ha1',
          mergeScript_list_found_noop p2 (es ++ [p1]) _ rfl
            (by simp [List.any_append, ha2])]
      · have ha2' := Bool.eq_false_iff.mpr ha2
        rw [mergeScript_list_notfound_append p1 es doc hm ha1',
          mergeScript_list_notfound_append p2 es doc hm ha2',
          mergeScript_list_notfound_append p2 (es ++ [p1]) _ rfl
            (by simp [List.any_append, ha2', hne]),
          mergeScript_list_notfound_append p1 (es ++ [p2]) _ rfl
            (by simp [List.any_append, ha1', hne21])]
        simp only [MetaFieldVal.entries, List.append_assoc]
        exact List.Perm.append_left es (List.Perm.swap p2 p1 [])

end NastyData

namespace NastyData

/-- C4: for one document id and two provenance entries with distinct
sub-identities, submitting the two upsert operations built by
`_make_upsert_op` in either order yields the same final merge-group
contents up to permutation (hence equal as a set of entries). -/
theorem claim_C4_commutative_merge (idx : String) (d1 d2 : DocumentDict)
    (p1 p2 : ProvEntry) (h1 : d1.metaFieldData = some p1)
    (h2 : d2.metaFieldData = some p2) (hne : p1.subId ≠ p2.subId)
    (s : Option StoredDoc) :
    ((applyBulkOp (make_upsert_op idx true d2)
        (some (applyBulkOp (make_upsert_op idx true d1) s))).metaField.entries).Perm
      ((applyBulkOp (make_upsert_op idx true d1)
        (some (applyBulkOp (make_upsert_op idx true d2) s))).metaField.entries) := by
  have hne21 : p2.subId ≠ p1.subId := fun h => hne h.symm
  cases s with
  | none =>
    simp only [make_upsert_op, h1, h2, applyBulkOp]
    rw [mergeScript_single_ne_promote p2 p1 d1.toStoredDoc
        (by simp [DocumentDict.toStoredDoc, h1]) hne,
      mergeScript_single_ne_promote p1 p2 d2.toStoredDoc
        (by simp [DocumentDict.toStoredDoc, h2]) hne21]
    simp only [MetaFieldVal.entries]
    exact List.Perm.swap p2 p1 []
  | some doc =>
    simp only [make_upsert_op, h1, h2, applyBulkOp]
    exact mergeScript_comm_perm p1 p2 hne doc

/-- Witness for C4 at a concrete input: ingesting `b1` then `b2` versus
`b2` then `b1` for document `doc1` gives permuted merge groups. -/
theorem claim_C4_commutative_merge_witness :
    ((applyBulkOp (make_upsert_op "idx" true ⟨"doc1", [], some ⟨"b2", []⟩⟩)
        (some (applyBulkOp (make_upsert_op "idx" true ⟨"doc1", [], some ⟨"b1", []⟩⟩)
          none))).metaField.entries).Perm
      ((applyBulkOp (make_upsert_op "idx" true ⟨"doc1", [], some ⟨"b1", []⟩⟩)
        (some (applyBulkOp (make_upsert_op "idx" true ⟨"doc1", [], some ⟨"b2", []⟩⟩)
          none))).metaField.entries) :=
  claim_C4_commutative_merge "idx" ⟨"doc1", [], some ⟨"b1", []⟩⟩
    ⟨"doc1", [], some ⟨"b2", []⟩⟩ ⟨"b1", []⟩ ⟨"b2", []⟩ rfl rfl (by decide) none

end NastyData

namespace NastyData
/-! ## Mapping trees (`_recursive_mapping_diff`)

A field definition, as returned by `get_mapping`, is a JSON object: some
scalar attributes (e.g. `"type": "text"`) and — for object fields — a
`"properties"` key holding the sub-field dict. `FieldDef.leaf` is a
definition without a `"properties"` key, `FieldDef.withProps` one with
it. `Props` is one level of a mapping: an ordered field-name →
field-definition dict. -/

mutual
inductive FieldDef : Type where
  | leaf (attrs : List (String × String)) : FieldDef
  | withProps (attrs : List (String × String)) (props : Props) : FieldDef

inductive Props : Type where
  | nil : Props
  | cons (field : String) (fd : FieldDef) (rest : Props) : Props
end

mutual
def FieldDef.beq : FieldDef → FieldDef → Bool
  | .leaf a1, .leaf a2 => a1 == a2
  | .withProps a1 p1, .withProps a2 p2 => a1 == a2 && Props.beq p1 p2
  | _, _ => false

def Props.beq : Props → Props → Bool
  | .nil, .nil => true
  | .cons f1 d1 r1, .cons f2 d2 r2 =>
    f1 == f2 && FieldDef.beq d1 d2 && Props.beq r1 r2
  | _, _ => false
end

mutual
theorem FieldDef.beq_iff_eq : ∀ (a b : FieldDef), FieldDef.beq a b = true ↔ a = b
  | .leaf a1, .leaf a2 => by simp [FieldDef.beq]
  | .leaf _, .withProps _ _ => by simp [FieldDef.beq]
  | .withProps _ _, .leaf _ => by simp [FieldDef.beq]
  | .withProps a1 p1, .withProps a2 p2 => by
    simp only [FieldDef.beq, Bool.and_eq_true, beq_iff_eq,
      FieldDef.withProps.injEq]
    exact and_congr_right fun _ => Props.beq_eq_iff p1 p2

theorem Props.beq_eq_iff : ∀ (a b : Props), Props.beq a b = true ↔ a = b
  | .nil, .nil => by simp [Props.beq]
  | .nil, .cons _ _ _ => by simp [Props.beq]
  | .cons _ _ _, .nil => by simp [Props.beq]
  | .cons f1 d1 r1, .cons f2 d2 r2 => by
    simp only [Props.beq, Bool.and_eq_true, beq_iff_eq, Props.cons.injEq,
      and_assoc]
    exact and_congr_right fun _ =>
      and_congr (FieldDef.beq_iff_eq d1 d2) (Props.beq_eq_iff r1 r2)
end

instance : DecidableEq FieldDef := fun a b =>
  decidable_of_iff _ (FieldDef.beq_iff_eq a b)

instance : DecidableEq Props := fun a b =>
  decidable_of_iff _ (Props.beq_eq_iff a b)

/-- Dict lookup (the read half of `induced_mapping.pop(field, None)`). -/
def Props.lookup (f : String) : Props → Option FieldDef
  | .nil => none
  | .cons g d rest => if g = f then some d else Props.lookup f rest

/-- Dict key removal (the write half of `pop`): removes the first binding
of `f` (a Python dict has at most one). -/
def Props.erase (f : String) : Props → Props
  | .nil => .nil
  | .cons g d rest => if g = f then rest else .cons g d (Props.erase f rest)

/-- The key list of one mapping level. -/
def Props.keys : Props → List String
  | .nil => []
  | .cons g _ rest => g :: Props.keys rest

/-- Python truthiness of a field definition dict: only `{}` is falsy. -/
def FieldDef.isFalsy : FieldDef → Bool
  | .leaf [] => true
  | _ => false

end NastyData

namespace NastyData

/-- One reported block of `_recursive_mapping_diff` (compressing each
multi-line log block into one constructor): a field only present in the
current dynamic mapping, a field-name header introducing a recursive or
leaf diff, a leaf mismatch showing both full definitions, or a field only
present in the induced mapping. `depth` is the indentation level. -/
inductive LogLine : Type where
  | onlyCurrent (depth : Nat) (field : String) (defn : FieldDef)
  | fieldHeader (depth : Nat) (field : String)
  | leafMismatch (depth : Nat) (field : String) (current induced : FieldDef)
  | onlyInduced (depth : Nat) (field : String) (defn : FieldDef)
deriving DecidableEq

/-- The trailing loop of `_recursive_mapping_diff`: every field left in
the induced mapping is reported as existing only there. -/
def onlyInducedLines (depth : Nat) : Props → List LogLine
  | .nil => []
  | .cons f d rest => .onlyInduced depth f d :: onlyInducedLines depth rest

mutual
/-- The diff `_recursive_mapping_diff(current_mapping, induced_mapping, depth)`:
iterate over the current mapping's fields, popping each from the induced
mapping; a field absent on the induced side is reported as "only in
current"; a popped field is compared by `fieldDiffLines`; finally every
unpopped induced field is reported as "only in induced". -/
def recursiveMappingDiff : Props → Props → Nat → List LogLine
  | .nil, ind, depth => onlyInducedLines depth ind
  | .cons f cfm rest, ind, depth =>
    match ind.lookup f with
    | none =>
      .onlyCurrent depth f cfm :: recursiveMappingDiff rest ind depth
    | some ifm =>
      fieldDiffLines f cfm ifm depth ++
        recursiveMappingDiff rest (ind.erase f) depth

/-- Per-field comparison of `_recursive_mapping_diff`: equal definitions
are skipped; a falsy induced definition is reported as "only in current";
when both sides carry `properties` the diff recurses one level deeper
under a field header; otherwise both full definitions are shown as a leaf
mismatch. -/
def fieldDiffLines (f : String) : FieldDef → FieldDef → Nat → List LogLine
  | .withProps a1 pc, .withProps a2 pi, depth =>
    if FieldDef.withProps a1 pc = FieldDef.withProps a2 pi then []
    else
      .fieldHeader depth f :: recursiveMappingDiff pc pi (depth + 1)
  | cfm, ifm, depth =>
    if cfm = ifm then []
    else if ifm.isFalsy then [.onlyCurrent depth f cfm]
    else [.fieldHeader depth f, .leafMismatch depth f cfm ifm]
end

end NastyData

namespace NastyData

def exampleTextDef : FieldDef := .leaf [("type", "text")]

def exampleKeywordDef : FieldDef := .leaf [("type", "keyword")]

end NastyData

namespace NastyData

/-- Indentation depth of a reported line. -/
def LogLine.lineDepth : LogLine → Nat
  | .onlyCurrent d _ _ => d
  | .fieldHeader d _ => d
  | .leafMismatch d _ _ _ => d
  | .onlyInduced d _ _ => d

/-- Field name of a reported line. -/
def LogLine.lineField : LogLine → String
  | .onlyCurrent _ f _ => f
  | .fieldHeader _ f => f
  | .leafMismatch _ f _ _ => f
  | .onlyInduced _ f _ => f

theorem Props.lookup_erase_ne (g f : String) (hne : g ≠ f) :
    ∀ p : Props, (p.erase g).lookup f = p.lookup f
  | .nil => rfl
  | .cons h d rest => by
    by_cases hg : h = g
    · subst hg
      simp [Props.erase, Props.lookup, hne]
    · simp only [Props.erase, hg, if_false, Props.lookup]
      by_cases hf : h = f
      · simp [hf]
      · simp [hf, Props.lookup_erase_ne g f hne rest]

theorem Props.keys_erase_subset (g : String) :
    ∀ p : Props, (p.erase g).keys ⊆ p.keys
  | .nil => by simp [Props.erase]
  | .cons h d rest => by
    by_cases hg : h = g
    · subst hg
      simp only [Props.erase, if_true, Props.keys]
      exact List.subset_cons_self h rest.keys
    · simp only [Props.erase, hg, if_false, Props.keys]
      exact List.cons_subset_cons h (Props.keys_erase_subset g rest)

theorem Props.lookup_eq_none_iff (f : String) :
    ∀ p : Props, p.lookup f = none ↔ f ∉ p.keys
  | .nil => by simp [Props.lookup, Props.keys]
  | .cons h d rest => by
    by_cases hf : h = f
    · simp [Props.lookup, Props.keys, hf]
    · simp only [Props.lookup, hf, if_false, Props.keys, List.mem_cons]
      rw [Props.lookup_eq_none_iff f rest]
      constructor
      · rintro hmem (rfl | hc)
        · exact hf rfl
        · exact hmem hc
      · intro hmem hc
        exact hmem (Or.inr hc)

theorem Props.nodup_keys_erase (g : String) :
    ∀ p : Props, p.keys.Nodup → (p.erase g).keys.Nodup
  | .nil => fun _ => by simp [Props.erase, Props.keys]
  | .cons h d rest => fun hn => by
    simp only [Props.keys, List.nodup_cons] at hn
    by_cases hg : h = g
    · subst hg
      simp only [Props.erase, if_true]
      exact hn.2
    · simp only [Props.erase, hg, if_false, Props.keys, List.nodup_cons]
      exact ⟨fun hmem => hn.1 (Props.keys_erase_subset g rest hmem),
        Props.nodup_keys_erase g rest hn.2⟩

theorem Props.lookup_erase_self (f : String) :
    ∀ p : Props, p.keys.Nodup → (p.erase f).lookup f = none
  | .nil => fun _ => rfl
  | .cons h d rest => fun hn => by
    simp only [Props.keys, List.nodup_cons] at hn
    by_cases hf : h = f
    · subst hf
      simp only [Props.erase, if_true]
      exact (Props.lookup_eq_none_iff h rest).mpr hn.1
    · simp only [Props.erase, hf, if_false, Props.lookup, hf]
      exact Props.lookup_erase_self f rest hn.2

theorem onlyInducedLines_mem (depth : Nat) (f : String) (d : FieldDef) :
    ∀ ind : Props, ind.lookup f = some d →
      LogLine.onlyInduced depth f d ∈ onlyInducedLines depth ind
  | .nil => by simp [Props.lookup]
  | .cons h dd rest => fun hl => by
    simp only [Props.lookup] at hl
    by_cases hf : h = f
    · simp only [hf, if_true, Option.some.injEq] at hl
      subst hf hl
      simp [onlyInducedLines]
    · simp only [hf, if_false] at hl
      simp only [onlyInducedLines, List.mem_cons]
      exact Or.inr (onlyInducedLines_mem depth f d rest hl)

theorem onlyInducedLines_mem_elim (depth : Nat) (l : LogLine) :
    ∀ ind : Props, l ∈ onlyInducedLines depth ind →
      ∃ f d, l = .onlyInduced depth f d ∧ f ∈ ind.keys
  | .nil => by simp [onlyInducedLines]
  | .cons h dd rest => fun hl => by
    simp only [onlyInducedLines, List.mem_cons] at hl
    rcases hl with hl | hl
    · exact ⟨h, dd, hl, by simp [Props.keys]⟩
    · obtain ⟨f, d, heq, hmem⟩ := onlyInducedLines_mem_elim depth l rest hl
      exact ⟨f, d, heq, by simp [Props.keys, hmem]⟩

end NastyData

namespace NastyData

mutual
theorem recursiveMappingDiff_line_struct :
    ∀ (cur ind : Props) (depth : Nat) (l : LogLine),
      l ∈ recursiveMappingDiff cur ind depth →
      depth ≤ l.lineDepth ∧
        (l.lineDepth = depth → l.lineField ∈ cur.keys ∨ l.lineField ∈ ind.keys)
  | .nil, ind, depth, l => fun hl => by
    simp only [recursiveMappingDiff] at hl
    obtain ⟨f, d, rfl, hmem⟩ := onlyInducedLines_mem_elim depth l ind hl
    exact ⟨le_refl _, fun _ => Or.inr hmem⟩
  | .cons f cfm rest, ind, depth, l => fun hl => by
    simp only [recursiveMappingDiff] at hl
    cases hlk : Props.lookup f ind with
    | none =>
      rw [hlk] at hl
      simp only [List.mem_cons] at hl
      rcases hl with rfl | hl
      · exact ⟨le_refl _, fun _ => Or.inl (by simp [LogLine.lineField, Props.keys])⟩
      · obtain ⟨h1, h2⟩ := recursiveMappingDiff_line_struct rest ind depth l hl
        refine ⟨h1, fun hd => ?_⟩
        rcases h2 hd with hmem | hmem
        · exact Or.inl (by simp only [Props.keys, List.mem_cons]; exact Or.inr hmem)
        · exact Or.inr hmem
    | some ifm =>
      rw [hlk] at hl
      simp only [List.mem_append] at hl
      rcases hl with hl | hl
      · obtain ⟨h1, h2⟩ := fieldDiffLines_line_struct f cfm ifm depth l hl
        exact ⟨h1, fun hd =>
          Or.inl (by simp only [Props.keys, List.mem_cons]; exact Or.inl (h2 hd))⟩
      · obtain ⟨h1, h2⟩ := recursiveMappingDiff_line_struct rest (ind.erase f) depth l hl
        refine ⟨h1, fun hd => ?_⟩
        rcases h2 hd with hmem | hmem
        · exact Or.inl (by simp only [Props.keys, List.mem_cons]; exact Or.inr hmem)
        · exact Or.inr (Props.keys_erase_subset f ind hmem)

theorem fieldDiffLines_line_struct :
    ∀ (f : String) (cfm ifm : FieldDef) (depth : Nat) (l : LogLine),
      l ∈ fieldDiffLines f cfm ifm depth →
      depth ≤ l.lineDepth ∧ (l.lineDepth = depth → l.lineField = f)
  | f, .withProps a1 pc, .withProps a2 pi, depth, l => fun hl => by
    simp only [fieldDiffLines] at hl
    by_cases he : FieldDef.withProps a1 pc = FieldDef.withProps a2 pi
    · simp [he] at hl
    · simp only [he, if_false, List.mem_cons] at hl
      rcases hl with rfl | hl
      · exact ⟨le_refl _, fun _ => rfl⟩
      · obtain ⟨h1, _⟩ := recursiveMappingDiff_line_struct pc pi (depth + 1) l hl
        exact ⟨by omega, fun hd => absurd hd (by omega)⟩
  | f, .leaf a1, .leaf a2, depth, l => fun hl => by
    simp only [fieldDiffLines] at hl
    split at hl
    · simp at hl
    · split at hl
      · simp only [List.mem_singleton] at hl
        subst hl
        exact ⟨le_refl _, fun _ => rfl⟩
      · simp only [List.mem_cons, List.mem_singleton] at hl
        rcases hl with rfl | rfl | hfalse
        · exact ⟨le_refl _, fun _ => rfl⟩
        · exact ⟨le_refl _, fun _ => rfl⟩
        · simp at hfalse
  | f, .leaf a1, .withProps a2 pi, depth, l => fun hl => by
    simp only [fieldDiffLines] at hl
    split at hl
    · simp at hl
    · split at hl
      · simp only [List.mem_singleton] at hl
        subst hl
        exact ⟨le_refl _, fun _ => rfl⟩
      · simp only [List.mem_cons, List.mem_singleton] at hl
        rcases hl with rfl | rfl | hfalse
        · exact ⟨le_refl _, fun _ => rfl⟩
        · exact ⟨le_refl _, fun _ => rfl⟩
        · simp at hfalse
  | f, .withProps a1 pc, .leaf a2, depth, l => fun hl => by
    simp only [fieldDiffLines] at hl
    split at hl
    · simp at hl
    · split at hl
      · simp only [List.mem_singleton] at hl
        subst hl
        exact ⟨le_refl _, fun _ => rfl⟩
      · simp only [List.mem_cons, List.mem_singleton] at hl
        rcases hl with rfl | rfl | hfalse
        · exact ⟨le_refl _, fun _ => rfl⟩
        · exact ⟨le_refl _, fun _ => rfl⟩
        · simp at hfalse
end

end NastyData

namespace NastyData

/-- A field present in the current mapping but absent from the induced
mapping is reported as "only in current". -/
theorem recursiveMappingDiff_onlyCurrent (depth : Nat) (f : String) (d : FieldDef) :
    ∀ (cur ind : Props), cur.lookup f = some d → ind.lookup f = none →
      LogLine.onlyCurrent depth f d ∈ recursiveMappingDiff cur ind depth
  | .nil, ind => fun hc _ => by simp [Props.lookup] at hc
  | .cons g gfm rest, ind => fun hc hi => by
    simp only [Props.lookup] at hc
    by_cases hg : g = f
    · subst hg
      simp only [if_true] at hc
      injection hc with hc
      subst hc
      simp [recursiveMappingDiff, hi]
    · simp only [hg, if_false] at hc
      simp only [recursiveMappingDiff]
      cases hlk : Props.lookup g ind with
      | none =>
        exact List.mem_cons_of_mem _
          (recursiveMappingDiff_onlyCurrent depth f d rest ind hc hi)
      | some ifm =>
        refine List.mem_append_right _ ?_
        refine recursiveMappingDiff_onlyCurrent depth f d rest (ind.erase g) hc ?_
        rw [Props.lookup_erase_ne g f hg ind]
        exact hi

/-- A field present in the induced mapping but absent from the current
mapping is reported as "only in induced". -/
theorem recursiveMappingDiff_onlyInduced (depth : Nat) (f : String) (d : FieldDef) :
    ∀ (cur ind : Props), ind.lookup f = some d → cur.lookup f = none →
      LogLine.onlyInduced depth f d ∈ recursiveMappingDiff cur ind depth
  | .nil, ind => fun hi _ => by
    simp only [recursiveMappingDiff]
    exact onlyInducedLines_mem depth f d ind hi
  | .cons g gfm rest, ind => fun hi hc => by
    simp only [Props.lookup] at hc
    by_cases hg : g = f
    · simp [hg] at hc
    · simp only [hg, if_false] at hc
      simp only [recursiveMappingDiff]
      cases hlk : Props.lookup g ind with
      | none =>
        exact List.mem_cons_of_mem _
          (recursiveMappingDiff_onlyInduced depth f d rest ind hi hc)
      | some ifm =>
        refine List.mem_append_right _ ?_
        refine recursiveMappingDiff_onlyInduced depth f d rest (ind.erase g) ?_ hc
        rw [Props.lookup_erase_ne g f hg ind]
        exact hi

/-- A field present on both sides contributes exactly its
`fieldDiffLines` block, contiguously, to the report. -/
theorem recursiveMappingDiff_popped (depth : Nat) (f : String) (cfm ifm : FieldDef) :
    ∀ (cur ind : Props), cur.lookup f = some cfm → ind.lookup f = some ifm →
      ∃ A B, recursiveMappingDiff cur ind depth =
        A ++ fieldDiffLines f cfm ifm depth ++ B
  | .nil, ind => fun hc _ => by simp [Props.lookup] at hc
  | .cons g gfm rest, ind => fun hc hi => by
    simp only [Props.lookup] at hc
    by_cases hg : g = f
    · subst hg
      simp only [if_true] at hc
      injection hc with hc
      subst hc
      refine ⟨[], recursiveMappingDiff rest (ind.erase g) depth, ?_⟩
      simp [recursiveMappingDiff, hi]
    · simp only [hg, if_false] at hc
      simp only [recursiveMappingDiff]
      cases hlk : Props.lookup g ind with
      | none =>
        obtain ⟨A, B, hAB⟩ :=
          recursiveMappingDiff_popped depth f cfm ifm rest ind hc hi
        exact ⟨.onlyCurrent depth g gfm :: A, B, by simp [hAB]⟩
      | some gifm =>
        have hi' : (ind.erase g).lookup f = some ifm := by
          rw [Props.lookup_erase_ne g f hg ind]; exact hi
        obtain ⟨A, B, hAB⟩ :=
          recursiveMappingDiff_popped depth f cfm ifm rest (ind.erase g) hc hi'
        exact ⟨fieldDiffLines g gfm gifm depth ++ A, B, by simp [hAB]⟩

end NastyData

namespace NastyData

/-- Whether a field definition carries a `"properties"` key. -/
def FieldDef.hasProps : FieldDef → Bool
  | .leaf _ => false
  | .withProps _ _ => true

/-- Equal definitions produce no diff block. -/
theorem fieldDiffLines_self (f : String) (d : FieldDef) (depth : Nat) :
    fieldDiffLines f d d depth = [] := by
  cases d <;> simp [fieldDiffLines]

/-- Unequal object definitions (both with `properties`) produce a header
followed by the recursive diff of their sub-trees. -/
theorem fieldDiffLines_withProps_ne (f : String)
    (a1 a2 : List (String × String)) (pc pi : Props) (depth : Nat)
    (hne : FieldDef.withProps a1 pc ≠ .withProps a2 pi) :
    fieldDiffLines f (.withProps a1 pc) (.withProps a2 pi) depth =
      .fieldHeader depth f :: recursiveMappingDiff pc pi (depth + 1) := by
  simp [fieldDiffLines, hne]

/-- Unequal definitions not both carrying `properties`, with a truthy
induced side, produce a header and a leaf mismatch showing both
definitions. -/
theorem fieldDiffLines_leaf_mismatch (f : String) (cfm ifm : FieldDef)
    (depth : Nat) (hne : cfm ≠ ifm) (hfal : ifm.isFalsy = false)
    (hprops : cfm.hasProps = false ∨ ifm.hasProps = false) :
    fieldDiffLines f cfm ifm depth =
      [.fieldHeader depth f, .leafMismatch depth f cfm ifm] := by
  cases cfm <;> cases ifm <;>
    simp_all [fieldDiffLines, FieldDef.hasProps]

/-- A field whose definitions agree on both sides is skipped: no line of
the report at this depth names it. -/
theorem recursiveMappingDiff_skip (depth : Nat) (f : String) (d : FieldDef) :
    ∀ (cur ind : Props), cur.keys.Nodup → ind.keys.Nodup →
      cur.lookup f = some d → ind.lookup f = some d →
      ∀ l ∈ recursiveMappingDiff cur ind depth,
        l.lineDepth = depth → l.lineField ≠ f
  | .nil, ind => fun _ _ hc _ => by simp [Props.lookup] at hc
  | .cons g gfm rest, ind => fun hnc hni hc hi l hl hd => by
    simp only [Props.keys, List.nodup_cons] at hnc
    simp only [Props.lookup] at hc
    by_cases hg : g = f
    · subst hg
      simp only [if_true] at hc
      injection hc with hc
      subst hc
      simp only [recursiveMappingDiff, hi, fieldDiffLines_self,
        List.nil_append] at hl
      obtain ⟨_, h2⟩ := recursiveMappingDiff_line_struct rest (ind.erase g) depth l hl
      intro hfeq
      rcases h2 hd with hmem | hmem
      · exact hnc.1 (hfeq ▸ hmem)
      · have hnone : (ind.erase g).lookup g = none :=
          Props.lookup_erase_self g ind hni
        rw [Props.lookup_eq_none_iff] at hnone
        exact hnone (hfeq ▸ hmem)
    · simp only [hg, if_false] at hc
      simp only [recursiveMappingDiff] at hl
      cases hlk : Props.lookup g ind with
      | none =>
        rw [hlk] at hl
        simp only [List.mem_cons] at hl
        rcases hl with rfl | hl
        · simpa [LogLine.lineField] using hg
        · exact recursiveMappingDiff_skip depth f d rest ind hnc.2 hni hc hi l hl hd
      | some gifm =>
        rw [hlk] at hl
        simp only [List.mem_append] at hl
        rcases hl with hl | hl
        · obtain ⟨_, h2⟩ := fieldDiffLines_line_struct g gfm gifm depth l hl
          rw [h2 hd]
          exact hg
        · have hi' : (ind.erase g).lookup f = some d := by
            rw [Props.lookup_erase_ne g f hg ind]; exact hi
          exact recursiveMappingDiff_skip depth f d rest (ind.erase g) hnc.2
            (Props.nodup_keys_erase g ind hni) hc hi' l hl hd

end NastyData

namespace NastyData

/-- C8: for any pair of mapping trees with duplicate-free keys,
`_recursive_mapping_diff` (1) reports each field present only in the
current mapping as "only in current", (2) reports each field present only
in the induced mapping as "only in induced", (3) emits no line at this
depth for a field whose definitions are equal, (4) recurses field-by-field
into nested object sub-trees when both sides carry `properties`, emitting
the nested diff contiguously under the field's header, and (5) shows both
full definitions on a leaf mismatch. -/
theorem claim_C8_recursive_mapping_diff (cur ind : Props) (depth : Nat)
    (hnc : cur.keys.Nodup) (hni : ind.keys.Nodup) :
    (∀ f d, cur.lookup f = some d → ind.lookup f = none →
      LogLine.onlyCurrent depth f d ∈ recursiveMappingDiff cur ind depth) ∧
    (∀ f d, ind.lookup f = some d → cur.lookup f = none →
      LogLine.onlyInduced depth f d ∈ recursiveMappingDiff cur ind depth) ∧
    (∀ f d, cur.lookup f = some d → ind.lookup f = some d →
      ∀ l ∈ recursiveMappingDiff cur ind depth, l.lineDepth = depth →
        l.lineField ≠ f) ∧
    (∀ f a1 a2 pc pi, cur.lookup f = some (.withProps a1 pc) →
      ind.lookup f = some (.withProps a2 pi) →
      FieldDef.withProps a1 pc ≠ .withProps a2 pi →
      ∃ A B, recursiveMappingDiff cur ind depth =
        A ++ (LogLine.fieldHeader depth f ::
          recursiveMappingDiff pc pi (depth + 1)) ++ B) ∧
    (∀ f cfm ifm, cur.lookup f = some cfm → ind.lookup f = some ifm →
      cfm ≠ ifm → ifm.isFalsy = false →
      (cfm.hasProps = false ∨ ifm.hasProps = false) →
      ∃ A B, recursiveMappingDiff cur ind depth =
        A ++ [LogLine.fieldHeader depth f,
          LogLine.leafMismatch depth f cfm ifm] ++ B) := by
  refine ⟨fun f d hc hi => recursiveMappingDiff_onlyCurrent depth f d cur ind hc hi,
    fun f d hi hc => recursiveMappingDiff_onlyInduced depth f d cur ind hi hc,
    fun f d hc hi => recursiveMappingDiff_skip depth f d cur ind hnc hni hc hi,
    fun f a1 a2 pc pi hc hi hne => ?_, fun f cfm ifm hc hi hne hfal hprops => ?_⟩
  · obtain ⟨A, B, hAB⟩ :=
      recursiveMappingDiff_popped depth f (.withProps a1 pc) (.withProps a2 pi)
        cur ind hc hi
    rw [fieldDiffLines_withProps_ne f a1 a2 pc pi depth hne] at hAB
    exact ⟨A, B, hAB⟩
  · obtain ⟨A, B, hAB⟩ :=
      recursiveMappingDiff_popped depth f cfm ifm cur ind hc hi
    rw [fieldDiffLines_leaf_mismatch f cfm ifm depth hne hfal hprops] at hAB
    exact ⟨A, B, hAB⟩

/-- Witness for C8 at concrete mappings: current has `foo` (only there), a
shared equal field `shared`, an object field `obj` with a nested mismatch
`x`, and a leaf mismatch `kind`; induced additionally has `bar`. -/
theorem claim_C8_recursive_mapping_diff_witness :
    (∀ f d, (Props.cons "foo" exampleTextDef (.cons "shared" exampleKeywordDef (.cons "obj" (.withProps [] (.cons "x" exampleTextDef .nil)) (.cons "kind" exampleTextDef .nil)))).lookup f = some d →
      (Props.cons "shared" exampleKeywordDef (.cons "obj" (.withProps [] (.cons "x" exampleKeywordDef .nil)) (.cons "kind" exampleKeywordDef (.cons "bar" exampleTextDef .nil)))).lookup f = none →
      LogLine.onlyCurrent 0 f d ∈ recursiveMappingDiff (Props.cons "foo" exampleTextDef (.cons "shared" exampleKeywordDef (.cons "obj" (.withProps [] (.cons "x" exampleTextDef .nil)) (.cons "kind" exampleTextDef .nil)))) (Props.cons "shared" exampleKeywordDef (.cons "obj" (.withProps [] (.cons "x" exampleKeywordDef .nil)) (.cons "kind" exampleKeywordDef (.cons "bar" exampleTextDef .nil)))) 0) ∧
    (∀ f d, (Props.cons "shared" exampleKeywordDef (.cons "obj" (.withProps [] (.cons "x" exampleKeywordDef .nil)) (.cons "kind" exampleKeywordDef (.cons "bar" exampleTextDef .nil)))).lookup f = some d →
      (Props.cons "foo" exampleTextDef (.cons "shared" exampleKeywordDef (.cons "obj" (.withProps [] (.cons "x" exampleTextDef .nil)) (.cons "kind" exampleTextDef .nil)))).lookup f = none →
      LogLine.onlyInduced 0 f d ∈ recursiveMappingDiff (Props.cons "foo" exampleTextDef (.cons "shared" exampleKeywordDef (.cons "obj" (.withProps [] (.cons "x" exampleTextDef .nil)) (.cons "kind" exampleTextDef .nil)))) (Props.cons "shared" exampleKeywordDef (.cons "obj" (.withProps [] (.cons "x" exampleKeywordDef .nil)) (.cons "kind" exampleKeywordDef (.cons "bar" exampleTextDef .nil)))) 0) ∧
    (∀ f d, (Props.cons "foo" exampleTextDef (.cons "shared" exampleKeywordDef (.cons "obj" (.withProps [] (.cons "x" exampleTextDef .nil)) (.cons "kind" exampleTextDef .nil)))).lookup f = some d →
      (Props.cons "shared" exampleKeywordDef (.cons "obj" (.withProps [] (.cons "x" exampleKeywordDef .nil)) (.cons "kind" exampleKeywordDef (.cons "bar" exampleTextDef .nil)))).lookup f = some d →
      ∀ l ∈ recursiveMappingDiff (Props.cons "foo" exampleTextDef (.cons "shared" exampleKeywordDef (.cons "obj" (.withProps [] (.cons "x" exampleTextDef .nil)) (.cons "kind" exampleTextDef .nil)))) (Props.cons "shared" exampleKeywordDef (.cons "obj" (.withProps [] (.cons "x" exampleKeywordDef .nil)) (.cons "kind" exampleKeywordDef (.cons "bar" exampleTextDef .nil)))) 0, l.lineDepth = 0 →
        l.lineField ≠ f) ∧
    (∀ f a1 a2 pc pi, (Props.cons "foo" exampleTextDef (.cons "shared" exampleKeywordDef (.cons "obj" (.withProps [] (.cons "x" exampleTextDef .nil)) (.cons "kind" exampleTextDef .nil)))).lookup f = some (.withProps a1 pc) →
      (Props.cons "shared" exampleKeywordDef (.cons "obj" (.withProps [] (.cons "x" exampleKeywordDef .nil)) (.cons "kind" exampleKeywordDef (.cons "bar" exampleTextDef .nil)))).lookup f = some (.withProps a2 pi) →
      FieldDef.withProps a1 pc ≠ .withProps a2 pi →
      ∃ A B, recursiveMappingDiff (Props.cons "foo" exampleTextDef (.cons "shared" exampleKeywordDef (.cons "obj" (.withProps [] (.cons "x" exampleTextDef .nil)) (.cons "kind" exampleTextDef .nil)))) (Props.cons "shared" exampleKeywordDef (.cons "obj" (.withProps [] (.cons "x" exampleKeywordDef .nil)) (.cons "kind" exampleKeywordDef (.cons "bar" exampleTextDef .nil)))) 0 =
        A ++ (LogLine.fieldHeader 0 f :: recursiveMappingDiff pc pi 1) ++ B) ∧
    (∀ f cfm ifm, (Props.cons "foo" exampleTextDef (.cons "shared" exampleKeywordDef (.cons "obj" (.withProps [] (.cons "x" exampleTextDef .nil)) (.cons "kind" exampleTextDef .nil)))).lookup f = some cfm →
      (Props.cons "shared" exampleKeywordDef (.cons "obj" (.withProps [] (.cons "x" exampleKeywordDef .nil)) (.cons "kind" exampleKeywordDef (.cons "bar" exampleTextDef .nil)))).lookup f = some ifm →
      cfm ≠ ifm → ifm.isFalsy = false →
      (cfm.hasProps = false ∨ ifm.hasProps = false) →
      ∃ A B, recursiveMappingDiff (Props.cons "foo" exampleTextDef (.cons "shared" exampleKeywordDef (.cons "obj" (.withProps [] (.cons "x" exampleTextDef .nil)) (.cons "kind" exampleTextDef .nil)))) (Props.cons "shared" exampleKeywordDef (.cons "obj" (.withProps [] (.cons "x" exampleKeywordDef .nil)) (.cons "kind" exampleKeywordDef (.cons "bar" exampleTextDef .nil)))) 0 =
        A ++ [LogLine.fieldHeader 0 f, LogLine.leafMismatch 0 f cfm ifm] ++ B) :=
  claim_C8_recursive_mapping_diff
    (Props.cons "foo" exampleTextDef (.cons "shared" exampleKeywordDef (.cons "obj" (.withProps [] (.cons "x" exampleTextDef .nil)) (.cons "kind" exampleTextDef .nil))))
    (Props.cons "shared" exampleKeywordDef (.cons "obj" (.withProps [] (.cons "x" exampleKeywordDef .nil)) (.cons "kind" exampleKeywordDef (.cons "bar" exampleTextDef .nil))))
    0 (by decide) (by decide)

end NastyData

namespace NastyData

/-! ## Engine state and `new_index`

The engine state visible to the index lifecycle code: the existing indices
with their mappings, and the alias pairs `(index name, alias name)`.
Network effects are explicit state passing; the outcome of the
server-side reindex call is injected as the boolean oracle `reindexOk`;
an exception propagating out of the Python function is an `Except.error`
paired with the state at the moment of the raise. -/

structure ESState where
  indices : List (String × Props)
  aliases : List (String × String)
deriving DecidableEq

/-- The names of the existing indices. -/
def ESState.indexNames (st : ESState) : List String :=
  st.indices.map Prod.fst

/-- Existence check `Index(name).exists()`. -/
def indexExists (st : ESState) (name : String) : Bool :=
  st.indices.any fun p => p.1 == name

/-- Whether `name` matches the glob `base + "-*"` used by
`Index(index_base_name + "-*")`. -/
def globMatches (base name : String) : Bool :=
  List.isPrefixOf (base.data ++ ['-']) name.data

/-- The migration `new_index(index_base_name, document_cls, move_data, update_alias)`:
create the timestamp-versioned generation `index_base_name + "-" + ts`
with the mapping induced by the document class; if `move_data`, reindex
from the previous index (a failed/timed-out reindex raises, modelled by
the `reindexOk` oracle, with the state as of the raise); if
`update_alias`, delete the alias from every `index_base_name-*` index
that holds it (guarded by `exists_alias`) and put it on the new
generation; return the new generation's name. -/
def new_index (st : ESState) (index_base_name ts : String) (mapping : Props)
    (move_data update_alias reindexOk : Bool) :
    ESState × Except String String :=
  let new_index_name := index_base_name ++ "-" ++ ts
  let st1 : ESState :=
    { st with indices := st.indices ++ [(new_index_name, mapping)] }
  if move_data && !reindexOk then
    (st1, .error "MigrationCopyError")
  else
    let st2 : ESState :=
      if update_alias then
        let isHolder := fun (ia : String × String) =>
          globMatches index_base_name ia.1 && ia.2 == index_base_name
        let removed :=
          if (st1.aliases.filter isHolder).isEmpty then st1.aliases
          else st1.aliases.filter fun ia => !isHolder ia
        { st1 with aliases := removed ++ [(new_index_name, index_base_name)] }
      else st1
    (st2, .ok new_index_name)

/-- The generation prefix `base ++ "-"` is a prefix of every name it
generates. -/
theorem globMatches_generated (base ts : String) :
    globMatches base (base ++ "-" ++ ts) = true := by
  have hpre : ∀ (l r : List Char), l.isPrefixOf (l ++ r) = true := by
    intro l r
    induction l with
    | nil => simp [List.isPrefixOf]
    | cons c cs ih => simp [List.isPrefixOf, ih]
  simp only [globMatches, String.data_append]
  exact hpre (base.data ++ ['-']) ts.data

end NastyData

namespace NastyData

/-- C1: after a successful `new_index(base, cls, update_alias=True)`, the
indices matching `base-*` that hold the alias `base` are exactly the newly
created generation: resolving the alias among generations yields the new
name and no prior generation, and in particular at most one `base-*`
index holds the alias. -/
theorem claim_C1_alias_exactly_new_generation (st : ESState)
    (base ts : String) (mapping : Props) (move_data reindexOk : Bool)
    (st' : ESState) (name : String)
    (h : new_index st base ts mapping move_data true reindexOk = (st', .ok name)) :
    (st'.aliases.filter fun ia => globMatches base ia.1 && ia.2 == base).map
      Prod.fst = [name] := by
  simp only [new_index] at h
  split at h
  · simp at h
  · rw [Prod.mk.injEq] at h
    obtain ⟨hst, hname⟩ := h
    injection hname with hname
    subst hname
    subst hst
    simp only [if_true]
    rw [List.filter_append, List.map_append]
    have hnew : (List.filter
        (fun ia => globMatches base ia.1 && ia.2 == base)
        [(base ++ "-" ++ ts, base)]) = [(base ++ "-" ++ ts, base)] := by
      simp [List.filter, globMatches_generated base ts]
    have hrem : (List.filter (fun ia => globMatches base ia.1 && ia.2 == base)
        (if (List.filter (fun ia => globMatches base ia.1 && ia.2 == base)
              st.aliases).isEmpty = true
         then st.aliases
         else st.aliases.filter fun ia =>
           !(globMatches base ia.1 && ia.2 == base))) = [] := by
      split
      · rename_i hempty
        rw [List.isEmpty_iff] at hempty
        exact hempty
      · rw [List.filter_eq_nil_iff]
        intro ia hia
        rw [List.mem_filter] at hia
        simp only [Bool.not_eq_true'] at hia
        simp [hia.2]
    rw [hrem, hnew]
    simp

end NastyData

namespace NastyData

/-- Witness for C1 at a concrete state: migrating `posts` away from the
old generation leaves the alias on exactly the new generation. -/
theorem claim_C1_alias_exactly_new_generation_witness :
    ((⟨[("posts-old", Props.nil), ("posts-20240101-000000", Props.nil)],
        [("posts-20240101-000000", "posts")]⟩ : ESState).aliases.filter
      fun ia => globMatches "posts" ia.1 && ia.2 == "posts").map Prod.fst =
      ["posts-20240101-000000"] :=
  claim_C1_alias_exactly_new_generation
    ⟨[("posts-old", Props.nil)], [("posts-old", "posts")]⟩
    "posts" "20240101-000000" Props.nil false true
    ⟨[("posts-old", Props.nil), ("posts-20240101-000000", Props.nil)],
      [("posts-20240101-000000", "posts")]⟩
    "posts-20240101-000000" (by rfl)

/-- C6: when `move_data=True` and the server-side reindex fails or times
out, `new_index` raises `MigrationCopyError` with the alias left exactly
as it was; the freshly created generation exists but holds no alias — it
is orphaned, and the alias-update step is never reached. -/
theorem claim_C6_reindex_failure_orphan (st : ESState) (base ts : String)
    (mapping : Props) (update_alias : Bool)
    (hfresh : ∀ a, (base ++ "-" ++ ts, a) ∉ st.aliases) :
    new_index st base ts mapping true update_alias false =
      ({ st with indices := st.indices ++ [(base ++ "-" ++ ts, mapping)] },
        .error "MigrationCopyError") ∧
    (new_index st base ts mapping true update_alias false).1.aliases =
      st.aliases ∧
    (base ++ "-" ++ ts, mapping) ∈
      (new_index st base ts mapping true update_alias false).1.indices ∧
    ∀ a, (base ++ "-" ++ ts, a) ∉
      (new_index st base ts mapping true update_alias false).1.aliases := by
  refine ⟨?_, ?_, ?_, ?_⟩ <;> simp [new_index, hfresh]

/-- Witness for C6 at a concrete state: a failed reindex into a new
`posts` generation leaves the alias on the old generation and the new
generation orphaned. -/
theorem claim_C6_reindex_failure_orphan_witness :
    new_index ⟨[("posts-old", Props.nil)], [("posts-old", "posts")]⟩
        "posts" "20240101-000000" Props.nil true true false =
      ({ (⟨[("posts-old", Props.nil)], [("posts-old", "posts")]⟩ : ESState) with
          indices := [("posts-old", Props.nil)] ++
            [("posts-20240101-000000", Props.nil)] },
        .error "MigrationCopyError") ∧
    (new_index ⟨[("posts-old", Props.nil)], [("posts-old", "posts")]⟩
        "posts" "20240101-000000" Props.nil true true false).1.aliases =
      [("posts-old", "posts")] ∧
    ("posts" ++ "-" ++ "20240101-000000", Props.nil) ∈
      (new_index ⟨[("posts-old", Props.nil)], [("posts-old", "posts")]⟩
        "posts" "20240101-000000" Props.nil true true false).1.indices ∧
    ∀ a, ("posts" ++ "-" ++ "20240101-000000", a) ∉
      (new_index ⟨[("posts-old", Props.nil)], [("posts-old", "posts")]⟩
        "posts" "20240101-000000" Props.nil true true false).1.aliases :=
  claim_C6_reindex_failure_orphan
    ⟨[("posts-old", Props.nil)], [("posts-old", "posts")]⟩
    "posts" "20240101-000000" Props.nil true (by simp)

end NastyData

namespace NastyData

/-- The guard `ensure_index_exists`: raises when the index does not exist. -/
def ensure_index_exists (st : ESState) (index_name : String) :
    Except String Unit :=
  if indexExists st index_name then .ok ()
  else .error "Elasticsearch index does not exist."

/-- Mapping fetch `Index(name).get_mapping()`, restricted to the properties tree the
diff consumes. -/
def ESState.getMapping (st : ESState) (name : String) : Option Props :=
  (st.indices.find? fun p => p.1 == name).map Prod.snd

/-- The analyzer body `_log_mapping_diff`: create a throwaway comparison generation via
`new_index(index_name + "-induced", cls, move_data=False,
update_alias=False)`; inside the `try` block fetch both mappings (network
failure injected by the `fetchOk` oracle; an empty fetch logs an error
and returns early) and compute the recursive diff; in the `finally`
block delete the comparison index. -/
def log_mapping_diff (st : ESState) (index_name ts : String)
    (inducedMapping : Props) (fetchOk : Bool) :
    ESState × Except String (List LogLine) :=
  match new_index st (index_name ++ "-induced") ts inducedMapping false false true with
  | (st1, .error e) => (st1, .error e)
  | (st1, .ok induced_name) =>
    let result : Except String (List LogLine) :=
      if fetchOk then
        match st1.getMapping index_name, st1.getMapping induced_name with
        | some currentMapping, some inducedProperties =>
          .ok (recursiveMappingDiff currentMapping inducedProperties 0)
        | _, _ => .ok []
      else .error "ConnectionError"
    ({ st1 with indices := st1.indices.filter fun p => p.1 != induced_name },
      result)

/-- The entry point `analyze_index`: require the index to exist, then log the mapping
diff. -/
def analyze_index (st : ESState) (index_name ts : String)
    (inducedMapping : Props) (fetchOk : Bool) :
    ESState × Except String (List LogLine) :=
  match ensure_index_exists st index_name with
  | .error e => (st, .error e)
  | .ok _ => log_mapping_diff st index_name ts inducedMapping fetchOk

/-- C7: whenever `analyze_index` gets past the existence check (so the
throwaway comparison index is created), the comparison index is deleted
again before the call finishes — whether the diff computation returns
normally or throws (`fetchOk` arbitrary) — and the final engine state is
exactly the initial one: the analyzed index, its mapping and every alias
are unchanged. -/
theorem claim_C7_analyze_cleanup_and_frame (st : ESState)
    (name ts : String) (m : Props) (fetchOk : Bool)
    (hex : indexExists st name = true)
    (hfresh : (name ++ "-induced" ++ "-" ++ ts) ∉ st.indexNames) :
    (analyze_index st name ts m fetchOk).1 = st ∧
    (name ++ "-induced" ++ "-" ++ ts) ∉
      (analyze_index st name ts m fetchOk).1.indexNames := by
  have hfilter : st.indices.filter
      (fun p => p.1 != name ++ "-induced" ++ "-" ++ ts) = st.indices := by
    rw [List.filter_eq_self]
    intro p hp
    have : p.1 ∈ st.indexNames := List.mem_map_of_mem Prod.fst hp
    simp only [bne_iff_ne, ne_eq]
    intro hc
    exact hfresh (hc ▸ this)
  have hstate : (analyze_index st name ts m fetchOk).1 = st := by
    simp only [analyze_index, ensure_index_exists, hex, if_true,
      log_mapping_diff, new_index, Bool.false_and, Bool.not_true,
      Bool.and_self, if_false]
    simp [List.filter_append, hfilter]
  exact ⟨hstate, by rw [hstate]; exact hfresh⟩

/-- Witness for C7 at a concrete state. -/
theorem claim_C7_analyze_cleanup_and_frame_witness :
    (analyze_index
        ⟨[("posts", Props.cons "a" exampleTextDef .nil)], [("posts", "p")]⟩
        "posts" "20240101-000000" Props.nil true).1 =
      ⟨[("posts", Props.cons "a" exampleTextDef .nil)], [("posts", "p")]⟩ ∧
    ("posts" ++ "-induced" ++ "-" ++ "20240101-000000") ∉
      (analyze_index
        ⟨[("posts", Props.cons "a" exampleTextDef .nil)], [("posts", "p")]⟩
        "posts" "20240101-000000" Props.nil true).1.indexNames :=
  claim_C7_analyze_cleanup_and_frame
    ⟨[("posts", Props.cons "a" exampleTextDef .nil)], [("posts", "p")]⟩
    "posts" "20240101-000000" Props.nil true (by decide) (by decide)

end NastyData

namespace NastyData

/-! ## Bulk ingestion (`add_documents_to_index`)

`document_dicts` is the stream of raw document dicts; `convert` is the
per-record work done inside `_make_upsert_op` before the op is emitted
(`from_dict` construction plus `full_clean` validation), which may raise;
an exception raised in a worker propagates out of `imap_unordered` into
the `bulk` consumer and aborts the run. `bulkItemOk` is the engine's
per-item outcome after the client's retry policy is exhausted. -/

inductive IngestError : Type where
  | indexNotFound : IngestError
  | documentConversion (msg : String) : IngestError
  | bulkIndexing (numSuccess numFailed : Nat) : IngestError
deriving DecidableEq

/-- The `make_upsert_ops` generator: converts records one by one; the
first conversion exception aborts the stream. -/
def make_upsert_ops {α : Type} (convert : α → Except String BulkOp) :
    List α → Except String (List BulkOp)
  | [] => .ok []
  | d :: rest =>
    match convert d with
    | .error e => .error e
    | .ok op =>
      match make_upsert_ops convert rest with
      | .error e => .error e
      | .ok ops => .ok (op :: ops)

/-- The `(num_success, num_failed)` pair computed by
`bulk(..., stats_only=True, max_retries=...)`. -/
def bulkStats (bulkItemOk : BulkOp → Bool) (ops : List BulkOp) : Nat × Nat :=
  ((ops.filter bulkItemOk).length, (ops.filter fun op => !bulkItemOk op).length)

/-- The ingestion driver `add_documents_to_index(index_name, document_cls, document_dicts)`:
ensure the index exists, build the upsert ops in a worker pool, submit
them in bulk, and — when the engine reports any failed items — raise an
`ElasticsearchException` carrying both counts. Returns `None` (unit) on
full success. -/
def add_documents_to_index {α : Type} (st : ESState) (index_name : String)
    (convert : α → Except String BulkOp) (bulkItemOk : BulkOp → Bool)
    (document_dicts : List α) : Except IngestError Unit :=
  match ensure_index_exists st index_name with
  | .error _ => .error .indexNotFound
  | .ok _ =>
    match make_upsert_ops convert document_dicts with
    | .error e => .error (.documentConversion e)
    | .ok ops =>
      let stats := bulkStats bulkItemOk ops
      if stats.2 ≠ 0 then .error (.bulkIndexing stats.1 stats.2)
      else .ok ()

/-- A failing record makes the whole op stream fail. -/
theorem make_upsert_ops_error_of_mem {α : Type}
    (convert : α → Except String BulkOp) :
    ∀ (docs : List α), (∃ d ∈ docs, ∃ e, convert d = .error e) →
      ∃ e, make_upsert_ops convert docs = .error e
  | [], h => by simp at h
  | d :: rest, h => by
    obtain ⟨d0, hd0, e0, he0⟩ := h
    simp only [List.mem_cons] at hd0
    rcases hd0 with rfl | hd0
    · exact ⟨e0, by simp [make_upsert_ops, he0]⟩
    · cases hc : convert d with
      | error e => exact ⟨e, by simp [make_upsert_ops, hc]⟩
      | ok op =>
        obtain ⟨e, he⟩ :=
          make_upsert_ops_error_of_mem convert rest ⟨d0, hd0, e0, he0⟩
        exact ⟨e, by simp [make_upsert_ops, hc, he]⟩

/-- A fully successful op stream has one op per record. -/
theorem make_upsert_ops_length {α : Type}
    (convert : α → Except String BulkOp) :
    ∀ (docs : List α) (ops : List BulkOp),
      make_upsert_ops convert docs = .ok ops → ops.length = docs.length
  | [], ops, h => by
    simp only [make_upsert_ops] at h
    injection h with h
    simp [← h]
  | d :: rest, ops, h => by
    simp only [make_upsert_ops] at h
    cases hc : convert d with
    | error e => rw [hc] at h; exact absurd h (by simp)
    | ok op =>
      rw [hc] at h
      cases hr : make_upsert_ops convert rest with
      | error e => rw [hr] at h; exact absurd h (by simp)
      | ok ops0 =>
        rw [hr] at h
        injection h with h
        subst h
        simp [make_upsert_ops_length convert rest ops0 hr]

end NastyData

namespace NastyData

/-- A conversion function for which records 0, 1, 2 fail normalization
and all others convert. -/
def exampleConvert (n : Nat) : Except String BulkOp :=
  if n < 3 then .error "NormalizationError"
  else .ok (.docAsUpsert "posts" (toString n) ⟨[], .null⟩)

/-- A per-item bulk outcome for which exactly the ops of records 0, 1, 2
fail. -/
def exampleBulkOk (op : BulkOp) : Bool :=
  match op with
  | .docAsUpsert _ i _ => i != "0" && i != "1" && i != "2"
  | .scriptedUpsert _ _ _ _ => true

/-- Counterexample to C3: on a stream of 100 records of which 3 fail
normalization, `add_documents_to_index` does not return `(97, 3)` — it
aborts the whole run with the propagated normalization error; and even
when all records convert and 3 items fail at the bulk stage, it raises an
exception carrying the counts instead of returning them. -/
theorem claim_C3_counterexample :
    add_documents_to_index ⟨[("posts", Props.nil)], []⟩ "posts"
        exampleConvert (fun _ => true) (List.range 100) =
      .error (.documentConversion "NormalizationError") ∧
    add_documents_to_index ⟨[("posts", Props.nil)], []⟩ "posts"
        (fun n : Nat => .ok (.docAsUpsert "posts" (toString n) ⟨[], .null⟩))
        exampleBulkOk (List.range 100) =
      .error (.bulkIndexing 97 3) :=
  ⟨rfl, rfl⟩

/-- C3 amended: `add_documents_to_index` returns no counts. If any record
fails normalization/validation, the run aborts with that error. If every
record converts, each record is accounted exactly once —
`numSucceeded + numFailed` equals the number of records — and the call
raises an exception carrying both counts when `numFailed > 0`, returning
unit otherwise. -/
theorem claim_C3_ingest_raises_not_returns {α : Type} (st : ESState)
    (index_name : String) (convert : α → Except String BulkOp)
    (bulkItemOk : BulkOp → Bool) (docs : List α)
    (hex : indexExists st index_name = true) :
    ((∃ d ∈ docs, ∃ e, convert d = .error e) →
      ∃ e, add_documents_to_index st index_name convert bulkItemOk docs =
        .error (.documentConversion e)) ∧
    (∀ ops, make_upsert_ops convert docs = .ok ops →
      (bulkStats bulkItemOk ops).1 + (bulkStats bulkItemOk ops).2 =
        docs.length ∧
      add_documents_to_index st index_name convert bulkItemOk docs =
        (if (bulkStats bulkItemOk ops).2 = 0 then .ok ()
         else .error (.bulkIndexing (bulkStats bulkItemOk ops).1
           (bulkStats bulkItemOk ops).2))) := by
  have hens : ensure_index_exists st index_name = .ok () := by
    simp [ensure_index_exists, hex]
  constructor
  · intro hfail
    obtain ⟨e, he⟩ := make_upsert_ops_error_of_mem convert docs hfail
    exact ⟨e, by simp [add_documents_to_index, hens, he]⟩
  · intro ops hops
    constructor
    · rw [← make_upsert_ops_length convert docs ops hops]
      exact (List.length_eq_length_filter_add (l := ops) bulkItemOk).symm
    · by_cases hz : (bulkStats bulkItemOk ops).2 = 0
      · simp [add_documents_to_index, hens, hops, hz]
      · simp [add_documents_to_index, hens, hops, hz]

/-- Witness for the amended C3 at a concrete input: three of the four
records fail normalization, so the run aborts with that error. -/
theorem claim_C3_ingest_raises_not_returns_witness :
    ((∃ d ∈ [0, 1, 2, 3], ∃ e, exampleConvert d = .error e) →
      ∃ e, add_documents_to_index ⟨[("posts", Props.nil)], []⟩ "posts"
        exampleConvert exampleBulkOk [0, 1, 2, 3] =
          .error (.documentConversion e)) ∧
    (∀ ops, make_upsert_ops exampleConvert [0, 1, 2, 3] = .ok ops →
      (bulkStats exampleBulkOk ops).1 + (bulkStats exampleBulkOk ops).2 = 4 ∧
      add_documents_to_index ⟨[("posts", Props.nil)], []⟩ "posts"
        exampleConvert exampleBulkOk [0, 1, 2, 3] =
        (if (bulkStats exampleBulkOk ops).2 = 0 then .ok ()
         else .error (.bulkIndexing (bulkStats exampleBulkOk ops).1
           (bulkStats exampleBulkOk ops).2))) :=
  claim_C3_ingest_raises_not_returns ⟨[("posts", Props.nil)], []⟩ "posts"
    exampleConvert exampleBulkOk [0, 1, 2, 3] (by decide)

end NastyData

namespace NastyData

/-! ## `BaseDocument.from_dict` purity

Python dicts are heap references; `from_dict` receives a reference,
deep-copies its contents into a fresh reference, lets the
`prepare_doc_dict` hook mutate the copy in place, and constructs the
document instance from the prepared copy. The heap is explicit so that
"the caller's dict is unmodified" is expressible. -/

abbrev DocDict := List (String × String)

structure PyHeap where
  next : Nat
  mem : Nat → DocDict

/-- Allocate a fresh reference holding `d` (the effect of `deepcopy`). -/
def PyHeap.alloc (h : PyHeap) (d : DocDict) : PyHeap × Nat :=
  ({ next := h.next + 1,
     mem := fun r => if r = h.next then d else h.mem r }, h.next)

/-- The per-document-type hooks `from_dict` dispatches to: the
`prepare_doc_dict` in-place rewrite (modelled as the value transformation
it applies) — construction `cls(**doc_dict)` yields the instance
determined by the prepared dict. -/
structure DocumentCls where
  prepare_doc_dict : DocDict → DocDict

/-- The constructor `BaseDocument.from_dict(doc_dict)`: deep-copy the argument, run
`prepare_doc_dict` on the copy (in place), construct the instance from
the copy's final contents. -/
def from_dict (cls : DocumentCls) (h : PyHeap) (r : Nat) : PyHeap × DocDict :=
  let copied := h.alloc (h.mem r)
  let h1 := copied.1
  let rCopy := copied.2
  let h2 : PyHeap :=
    { h1 with
      mem := fun x =>
        if x = rCopy then cls.prepare_doc_dict (h1.mem rCopy) else h1.mem x }
  (h2, h2.mem rCopy)

/-- C9: `from_dict` is pure towards its caller: for a valid reference the
caller's dict is left unmodified (the rewrite hook runs only on the deep
copy), and any two calls on references holding equal contents construct
equal document instances. -/
theorem claim_C9_from_dict_pure (cls : DocumentCls) (h : PyHeap) (r : Nat)
    (hr : r < h.next) :
    (from_dict cls h r).1.mem r = h.mem r ∧
    ∀ (h' : PyHeap) (r' : Nat), h'.mem r' = h.mem r →
      (from_dict cls h' r').2 = (from_dict cls h r).2 := by
  constructor
  · have hne : r ≠ h.next := Nat.ne_of_lt hr
    simp [from_dict, PyHeap.alloc, hne]
  · intro h' r' heq
    simp [from_dict, PyHeap.alloc, heq]

/-- Witness for C9 at a concrete heap: reference 0 holds a dict, the hook
prepends an id field, and the call leaves reference 0 unchanged. -/
theorem claim_C9_from_dict_pure_witness :
    (from_dict ⟨fun d => ("id", "1") :: d⟩
        ⟨1, fun r => if r = 0 then [("text", "hi")] else []⟩ 0).1.mem 0 =
      (fun r => if r = 0 then [("text", "hi")] else [] : Nat → DocDict) 0 ∧
    ∀ (h' : PyHeap) (r' : Nat),
      h'.mem r' =
        (fun r => if r = 0 then [("text", "hi")] else [] : Nat → DocDict) 0 →
      (from_dict ⟨fun d => ("id", "1") :: d⟩ h' r').2 =
        (from_dict ⟨fun d => ("id", "1") :: d⟩
          ⟨1, fun r => if r = 0 then [("text", "hi")] else []⟩ 0).2 :=
  claim_C9_from_dict_pure ⟨fun d => ("id", "1") :: d⟩
    ⟨1, fun r => if r = 0 then [("text", "hi")] else []⟩ 0 (by decide)

end NastyData
